import Mathlib

/- Verification model of parse_utility_rates.py: ZIP-to-utility resolution,
   tariff eligibility filtering, and tiered effective-price computation.
   Numeric cells are modelled as rationals; a pandas cell is an Option of a
   rational, where none models NaN or a non-numeric value; a column that is
   absent from the row's index is simply missing from the association list.
   Dates are modelled as day numbers (Int); none models NaT. -/

/-- A dataframe row restricted to its numeric rate-structure columns: an
association list from column name to cell value (none = NaN / non-numeric). -/
abbrev Row := List (String × Option ℚ)

/-- Value of column c in row: none when the column is absent from the row's
index, some none when the column is present but holds NaN or a non-number. -/
def colVal (row : Row) (c : String) : Option (Option ℚ) :=
  (List.find? (fun p => p.1 == c) row).map Prod.snd

/-- Column name energyratestructure/period0/tierNrate for tier N
(source line 126). -/
def rateCol (t : Nat) : String :=
  "energyratestructure/period0/tier" ++ toString t ++ "rate"

/-- Column name energyratestructure/period0/tierNmax for tier N
(source line 127). -/
def maxCol (t : Nat) : String :=
  "energyratestructure/period0/tier" ++ toString t ++ "max"

/-- The tier walk of effective_cents_per_kwh_for_usage (source lines 121-155).
State is (usage_remaining, cost, prev_max); the result is the state when the
loop ends, whether by break (rate column absent from the index, or
usage_remaining ≤ 1e-6 after billing) or by exhausting the tier list. -/
def tierLoop (row : Row) : List Nat → ℚ → ℚ → ℚ → ℚ × ℚ × ℚ
  | [], usage, cost, prevMax => (usage, cost, prevMax)
  | t :: ts, usage, cost, prevMax =>
    match colVal row (rateCol t) with
    | none => (usage, cost, prevMax)
    | some none => tierLoop row ts usage cost prevMax
    | some (some rate) =>
      if rate ≤ 0 then tierLoop row ts usage cost prevMax
      else
        let tierMax : Option ℚ := (colVal row (maxCol t)).getD none
        let tierEnergy : ℚ :=
          match tierMax with
          | none => usage
          | some m => if m ≤ 0 then usage else min usage (max (m - prevMax) 0)
        if tierEnergy ≤ 0 then
          tierLoop row ts usage cost (tierMax.getD prevMax)
        else
          let cost2 := cost + tierEnergy * rate
          let usage2 := usage - tierEnergy
          let prevMax2 : ℚ :=
            match tierMax with
            | some m => if 0 < m then m else prevMax
            | none => prevMax
          if usage2 ≤ 1 / 1000000 then (usage2, cost2, prevMax2)
          else tierLoop row ts usage2 cost2 prevMax2

/-- Translation of effective_cents_per_kwh_for_usage(row, monthly_kwh)
(source lines 116-161): walk period0 tiers 0..15, then return none when
monthly_kwh ≤ 0, else cost / monthly_kwh * 100 (cents per kWh). -/
def effective_cents_per_kwh_for_usage (row : Row) (monthly_kwh : ℚ) : Option ℚ :=
  let s := tierLoop row (List.range 16) monthly_kwh 0 0
  if monthly_kwh ≤ 0 then none
  else some (s.2.1 / monthly_kwh * 100)

/-- A tier whose rate column is present in the index but unusable: the cell is
NaN / non-numeric, or the rate is not positive (source line 133). -/
def presentUnusableRate (row : Row) (t : Nat) : Prop :=
  colVal row (rateCol t) = some none ∨
    ∃ r : ℚ, colVal row (rateCol t) = some (some r) ∧ r ≤ 0

/-- A tier that can never be billed: its rate column is absent (the loop
breaks there) or present but unusable. -/
def noUsableRate (row : Row) (t : Nat) : Prop :=
  colVal row (rateCol t) = none ∨ presentUnusableRate row t

/-- The positive period0 tier rates of a row, over the tier range 0..15 that
the pricing loop scans. -/
def period0Rates (row : Row) : List ℚ :=
  (List.range 16).filterMap (fun t =>
    match colVal row (rateCol t) with
    | some (some r) => if 0 < r then some r else none
    | _ => none)

/-- The column-name test of extract_cents_per_kwh (source line 177): the name
starts with energyratestructure/ and ends with rate, so it matches the energy
rate columns of every period, not only period0. -/
def isEnergyRateCol (c : String) : Bool :=
  List.isPrefixOf "energyratestructure/".toList c.toList &&
    List.isSuffixOf "rate".toList c.toList

/-- The rates list built by extract_cents_per_kwh (source lines 173-180): the
positive numeric values of qualifying columns, in row order. -/
def energyRates (row : Row) : List ℚ :=
  row.filterMap (fun p =>
    if isEnergyRateCol p.1 then
      match p.2 with
      | some v => if 0 < v then some v else none
      | none => none
    else none)

/-- Translation of extract_cents_per_kwh (source lines 167-185): none when no
qualifying positive rate exists, else the minimum such rate times 100. -/
def extract_cents_per_kwh (row : Row) : Option ℚ :=
  (energyRates row).min?.map (fun m => m * 100)

/-- A URDB tariff row restricted to the metadata columns that the filter chain
reads, plus the is_default flag, which is present in the dataset but never
read by the filtering code. Dates are day numbers; none models NaT. -/
structure TariffRow where
  utility : String
  sector : String
  name : Option String
  description : Option String
  startdate : Option Int
  enddate : Option Int
  is_default : Option Bool
deriving DecidableEq

/-- Check whether needle occurs as a contiguous sublist of hay. -/
def infixCheck (needle : List Char) : List Char → Bool
  | [] => needle.isEmpty
  | c :: t => List.isPrefixOf needle (c :: t) || infixCheck needle t

/-- Case-insensitive substring test, modelling pandas Series.str.contains with
case=False on the literal exclusion patterns; none of those patterns contains
a regex metacharacter, so regex matching and substring matching coincide. -/
def containsCI (hay pat : String) : Bool :=
  infixCheck (pat.toList.map Char.toLower) (hay.toList.map Char.toLower)

/-- Series.str.contains(pat, case=False, na=False) on one cell: a missing
string (NaN) yields false (source lines 111-112). -/
def cellContains (cell : Option String) (pat : String) : Bool :=
  match cell with
  | none => false
  | some s => containsCI s pat

/-- Multi-unit exclusion vocabulary (source lines 80-85). -/
def exclude_multi : List String :=
  ["Two", "2-", "2 ", "Two Residential", "Three", "3-", "3 ",
   "Three Residential", "Multi", "Multiple", "Condominium"]

/-- Special-plan exclusion vocabulary (source lines 87-96). -/
def exclude_special : List String :=
  ["Water Heater", "Heat Pump", "Off Peak", "Off-peak", "Storage", "Thermal",
   "Electric Vehicle", "EV", "Interruptible", "Time of Use", "TOU", "Seasonal"]

/-- Low-income exclusion vocabulary (source lines 98-107). -/
def exclude_low_income : List String :=
  ["Low Income", "Income Eligible", "Discount", "Lifeline", "Assistance",
   "Subsidized", "R-2", "R2", "A-2", "A2"]

/-- The df_zip stage (source line 50): keep tariff rows whose utility is among
the mapped utility names. -/
def df_zip (rows : List TariffRow) (mapped : List String) : List TariffRow :=
  rows.filter (fun r => mapped.contains r.utility)

/-- The df_zip_res stage (source line 53): exact, case-sensitive equality with
the string Residential. -/
def df_zip_res (rows : List TariffRow) : List TariffRow :=
  rows.filter (fun r => r.sector == "Residential")

/-- The 2100-01-01 sentinel used to fill a missing end date (source line 63),
as a day number relative to 1970-01-01. -/
def date2100 : Int := 47482

/-- Fill a missing end date with the 2100-01-01 sentinel (source line 63). -/
def fillEnd (r : TariffRow) : TariffRow :=
  ⟨r.utility, r.sector, r.name, r.description, r.startdate,
   some (r.enddate.getD date2100), r.is_default⟩

/-- The activity predicate (source lines 67-70): startdate ≤ today and
enddate ≥ today, with pandas NaT semantics — a NaT date compares false on
both sides, so a row with a NaT startdate is dropped. -/
def activePred (today : Int) (r : TariffRow) : Bool :=
  (match r.startdate with
   | some d => decide (d ≤ today)
   | none => false) &&
  (match r.enddate with
   | some d => decide (today ≤ d)
   | none => false)

/-- The df_active stage (source lines 59-70): fill missing end dates with the
2100-01-01 sentinel, then keep rows active today. -/
def df_active (rows : List TariffRow) (today : Int) : List TariffRow :=
  (rows.map fillEnd).filter (activePred today)

/-- One iteration of the exclusion loop body (source lines 110-112): drop rows
whose name or description contains the pattern, case-insensitively. -/
def excludeOnePat (rows : List TariffRow) (pat : String) : List TariffRow :=
  (rows.filter (fun r => !(cellContains r.name pat))).filter
    (fun r => !(cellContains r.description pat))

/-- The df_single stage (source lines 78-112): apply every exclusion pattern
in order to the active rows. -/
def df_single (activeRows : List TariffRow) : List TariffRow :=
  (exclude_multi ++ exclude_special ++ exclude_low_income).foldl excludeOnePat
    activeRows

/-- The whole eligibility chain of script sections 4-6: utility match, sector
match, date filter, exclusion patterns. -/
def eligiblePipeline (rows : List TariffRow) (mapped : List String)
    (today : Int) : List TariffRow :=
  df_single (df_active (df_zip_res (df_zip rows mapped)) today)

/-- Rewrite the is_default flag of a row, leaving every other field alone.
Used to state that the filter chain never reads the flag. -/
def setDefaultFlag (b : Option Bool) (r : TariffRow) : TariffRow :=
  ⟨r.utility, r.sector, r.name, r.description, r.startdate, r.enddate, b⟩

/-- One row of the combined ZIP map (the iou + non_iou concatenation of
source lines 13-17). -/
structure ZipRow where
  zip : Int
  utility_name : String
deriving DecidableEq

/-- The zip_utilities stage (source line 26): ZIP-map rows whose zip equals
the target ZIP. -/
def zip_utilities (zipmap : List ZipRow) (z : Int) : List ZipRow :=
  zipmap.filter (fun r => r.zip == z)

/-- Order-preserving deduplication with an accumulator of names already seen,
modelling pandas Series.unique (source line 27). -/
def uniqueLoop (seen : List String) : List String → List String
  | [] => []
  | n :: t =>
    if seen.contains n then uniqueLoop seen t
    else n :: uniqueLoop (n :: seen) t

/-- Deduplicated utility names in first-occurrence order (source line 27). -/
def uniqueNames (l : List String) : List String := uniqueLoop [] l

/-- The hard-coded utility-name dictionary of source lines 37-42. -/
def utility_map : List (String × String) :=
  [("Massachusetts Electric Co", "Massachusetts Electric Co"),
   ("NSTAR Electric Company", "NSTAR Electric Company"),
   ("Town of Hudson - (MA)", "Town of Hudson, Massachusetts (Utility Company)"),
   ("Town of Littleton - (MA)",
    "Town of Littleton, Massachusetts (Utility Company)")]

/-- Dictionary access on the utility-name map (source line 44): none models
the KeyError raised when the name is absent. -/
def mapLookup (u : String) : Option String :=
  (utility_map.find? (fun p => p.1 == u)).map Prod.snd

/-- The mapped_utilities comprehension (source line 44): a KeyError on any
name aborts the whole comprehension, modelled as none. -/
def mapped_utilities : List String → Option (List String)
  | [] => some []
  | n :: t =>
    match mapLookup n with
    | none => none
    | some v => (mapped_utilities t).map (fun vs => v :: vs)

/-- Resolution of a ZIP to its candidate tariff rows (source lines 26-50):
look up the ZIP rows, deduplicate the utility names, translate them through
utility_map (KeyError as none), and keep the tariffs of the mapped
utilities. -/
def resolveTariffs (zipmap : List ZipRow) (tariffs : List TariffRow)
    (z : Int) : Option (List TariffRow) :=
  (mapped_utilities
      (uniqueNames ((zip_utilities zipmap z).map (fun r => r.utility_name)))).map
    (fun ms => df_zip tariffs ms)

/-- The two-tier scenario row of the spec: tier0 rate 0.12 dollars with upper
bound 400 kWh, tier1 rate 0.18 dollars with no upper bound column. -/
def scenarioRow : Row :=
  [("energyratestructure/period0/tier0rate", some 0.12),
   ("energyratestructure/period0/tier0max", some 400),
   ("energyratestructure/period0/tier1rate", some 0.18)]

/-- A row whose tier0 rate cell is NaN while its tier0 upper bound is 100:
used to show that a rate-skipped tier does not advance prev_max. -/
def skipBoundRow : Row :=
  [("energyratestructure/period0/tier0rate", none),
   ("energyratestructure/period0/tier0max", some 100),
   ("energyratestructure/period0/tier1rate", some 0.10),
   ("energyratestructure/period0/tier1max", some 200)]

/-- A row with a single unbounded positive-rate tier. -/
def singleTierRow : Row :=
  [("energyratestructure/period0/tier0rate", some 0.25)]

/-- A residential default-sector tariff row whose is_default flag is false,
dated to pass the date filter and named to dodge every exclusion pattern. -/
def nonDefaultRow : TariffRow :=
  ⟨"Massachusetts Electric Co", "Residential", some "Basic Service",
   some "Standard residential plan", some 0, none, some false⟩

/-- A tariff row whose sector is lowercase residential. -/
def lowerSectorRow : TariffRow :=
  ⟨"Massachusetts Electric Co", "residential", some "Basic Service",
   some "Standard residential plan", some 0, none, some true⟩

/-- A tariff row whose sector is Residential TOU. -/
def touSectorRow : TariffRow :=
  ⟨"Massachusetts Electric Co", "Residential TOU", some "Basic Service",
   some "Standard residential plan", some 0, none, some true⟩

/-- A tariff row with an absent (NaT) start date and a far-future end date. -/
def noStartRow : TariffRow :=
  ⟨"Massachusetts Electric Co", "Residential", some "Basic Service",
   some "Standard residential plan", none, some 40000, some true⟩

/-- The tier walk on the empty tier list returns the state unchanged. -/
theorem tierLoop_nil (row : Row) (u c p : ℚ) : tierLoop row [] u c p = (u, c, p) := rfl

/-- A tier whose rate cell is present but unusable is skipped with the whole
state, prev_max included, unchanged. -/
theorem tierLoop_skip (row : Row) (ts : List Nat) (t : Nat) (u c p : ℚ)
    (h : presentUnusableRate row t) :
    tierLoop row (t :: ts) u c p = tierLoop row ts u c p := by
  rcases h with h | ⟨r, h, hr⟩
  · simp [tierLoop, h]
  · simp [tierLoop, h, hr]

/-- A tier whose rate column is absent from the index breaks the walk,
returning the state unchanged. -/
theorem tierLoop_break (row : Row) (ts : List Nat) (t : Nat) (u c p : ℚ)
    (h : colVal row (rateCol t) = none) :
    tierLoop row (t :: ts) u c p = (u, c, p) := by
  simp [tierLoop, h]

/-- A run of present-but-unusable tiers is skipped wholesale. -/
theorem tierLoop_skip_all (row : Row) (ts1 ts2 : List Nat) (u c p : ℚ)
    (h : ∀ t ∈ ts1, presentUnusableRate row t) :
    tierLoop row (ts1 ++ ts2) u c p = tierLoop row ts2 u c p := by
  induction ts1 with
  | nil => rfl
  | cons t ts ih =>
    rw [List.cons_append, tierLoop_skip _ _ _ _ _ _ (h t (List.mem_cons_self t ts))]
    exact ih (fun x hx => h x (List.mem_cons_of_mem t hx))

/-- When no tier of the list is usable, the walk leaves the state unchanged. -/
theorem tierLoop_noUsable (row : Row) (ts : List Nat) (u c p : ℚ)
    (h : ∀ t ∈ ts, noUsableRate row t) :
    tierLoop row ts u c p = (u, c, p) := by
  induction ts with
  | nil => rfl
  | cons t ts ih =>
    rcases h t (List.mem_cons_self t ts) with habs | hpres
    · exact tierLoop_break row ts t u c p habs
    · rw [tierLoop_skip _ _ _ _ _ _ hpres]
      exact ih (fun x hx => h x (List.mem_cons_of_mem t hx))

/-- Billing step for a usable tier with no (or a non-positive) upper bound and
positive remaining usage: the tier absorbs all remaining usage and the walk
breaks with cost increased by usage times rate. -/
theorem tierLoop_unbounded (row : Row) (ts : List Nat) (t : Nat) (u c p r : ℚ)
    (hrate : colVal row (rateCol t) = some (some r)) (hr : 0 < r) (hu : 0 < u)
    (hmax : (colVal row (maxCol t)).getD none = none ∨
      ∃ b, (colVal row (maxCol t)).getD none = some b ∧ b ≤ 0) :
    tierLoop row (t :: ts) u c p = (0, c + u * r, p) := by
  rcases hmax with hm1 | ⟨b, hm1, hb⟩
  · simp [tierLoop, hrate, hr.not_le, hm1, hu.not_le]
  · simp [tierLoop, hrate, hr.not_le, hm1, hu.not_le, hb]

/-- A tier list whose every member is below k can be split off the front of
range n when k < n. -/
theorem range_split (k n : Nat) (h : k < n) :
    ∃ rest, List.range n = List.range k ++ k :: rest := by
  refine ⟨(List.range (n - k - 1)).map (fun x => k + 1 + x), ?_⟩
  have h1 : n = k + ((n - k - 1) + 1) := by omega
  conv_lhs => rw [h1, List.range_add, List.range_succ_eq_map]
  simp only [List.map_cons, Nat.add_zero, List.map_map]
  have h3 : ((fun x => k + x) ∘ Nat.succ) = (fun x => k + 1 + x) := by
    funext x
    show k + Nat.succ x = k + 1 + x
    omega
  rw [h3]

/-- Full evaluation of the tier walk on the scenario row at usage 720. -/
theorem scenarioRow_loop :
    tierLoop scenarioRow (List.range 16) 720 0 0 = (0, 105.6, 400) := by
  have h0r : colVal scenarioRow (rateCol 0) = some (some 0.12) := rfl
  have h0m : colVal scenarioRow (maxCol 0) = some (some 400) := rfl
  have h1r : colVal scenarioRow (rateCol 1) = some (some 0.18) := rfl
  have h1m : colVal scenarioRow (maxCol 1) = none := rfl
  have h2r : colVal scenarioRow (rateCol 2) = none := rfl
  simp only [show List.range 16 = [0, 1, 2, 3, 4, 5, 6, 7, 8, 9, 10, 11, 12, 13, 14, 15]
    from rfl]
  norm_num [tierLoop, h0r, h0m, h1r, h1m, h2r, min_def, max_def]

/-- The engine's value on the scenario row at usage 720. -/
theorem scenarioRow_price :
    effective_cents_per_kwh_for_usage scenarioRow 720 = some (105.6 / 720 * 100) := by
  simp [effective_cents_per_kwh_for_usage, scenarioRow_loop]

/-- C1: for the two-tier scenario row at monthly usage 720 the engine accrues
cost 400 × 0.12 + 320 × 0.18 = 105.6 dollars and returns (105.6 / 720) × 100
cents per kWh — the exact value that the spec displays rounded as 14.67. -/
theorem spec_C1 :
    (tierLoop scenarioRow (List.range 16) 720 0 0).2.1 = 400 * 0.12 + 320 * 0.18 ∧
      effective_cents_per_kwh_for_usage scenarioRow 720 = some (105.6 / 720 * 100) ∧
      (14.665 : ℚ) ≤ 105.6 / 720 * 100 ∧ (105.6 / 720 * 100 : ℚ) < 14.675 := by
  exact ⟨by rw [scenarioRow_loop]; norm_num, scenarioRow_price, by norm_num, by norm_num⟩

/-- C2 counterexample: at positive usage 720 a row with no tier columns at all
prices to some 0, not to none as the claim requires. -/
theorem spec_C2_counterexample :
    effective_cents_per_kwh_for_usage [] 720 = some 0 ∧
      effective_cents_per_kwh_for_usage [] 720 ≠ none := by
  have h : tierLoop [] (List.range 16) 720 0 0 = (720, 0, 0) :=
    tierLoop_noUsable _ _ _ _ _ (fun t _ => Or.inl rfl)
  constructor
  · simp [effective_cents_per_kwh_for_usage, h]
  · simp [effective_cents_per_kwh_for_usage, h]

/-- C2 (amended): the engine returns none whenever monthly_kwh ≤ 0, and when
monthly_kwh > 0 and no period0 tier is usable it returns some 0 — an exact
zero price — rather than none. -/
theorem spec_C2_amended (row : Row) (m : ℚ) :
    (m ≤ 0 → effective_cents_per_kwh_for_usage row m = none) ∧
      (0 < m → (∀ t, t < 16 → noUsableRate row t) →
        effective_cents_per_kwh_for_usage row m = some 0) := by
  constructor
  · intro hm
    simp [effective_cents_per_kwh_for_usage, hm]
  · intro hm h
    have hl : tierLoop row (List.range 16) m 0 0 = (m, 0, 0) :=
      tierLoop_noUsable _ _ _ _ _ (fun t ht => h t (List.mem_range.mp ht))
    simp [effective_cents_per_kwh_for_usage, hl, hm.not_le]

/-- C2 witness: the amended statement evaluated at the empty row and usage
720. -/
theorem spec_C2_witness : effective_cents_per_kwh_for_usage [] 720 = some 0 :=
  (spec_C2_amended [] 720).2 (by norm_num) (fun t _ => Or.inl rfl)

/-- C7 counterexample: tier0 of skipBoundRow has a NaN rate and upper bound
100; after the walk over tier0 alone, prev_max is still 0, not 100, so tier1
is billed for capacity 200 rather than 100 and the effective price is
(200 × 0.10 / 720) × 100, not (100 × 0.10 / 720) × 100 as the claim's
bound-advancing reading would give. -/
theorem spec_C7_counterexample :
    (tierLoop skipBoundRow [0] 720 0 0).2.2 = 0 ∧
      colVal skipBoundRow (maxCol 0) = some (some 100) ∧
      effective_cents_per_kwh_for_usage skipBoundRow 720 =
        some (200 * 0.10 / 720 * 100) ∧
      (200 * 0.10 / 720 * 100 : ℚ) ≠ 100 * 0.10 / 720 * 100 := by
  have h0r : colVal skipBoundRow (rateCol 0) = some none := rfl
  have h1r : colVal skipBoundRow (rateCol 1) = some (some 0.10) := rfl
  have h1m : colVal skipBoundRow (maxCol 1) = some (some 200) := rfl
  have h2r : colVal skipBoundRow (rateCol 2) = none := rfl
  have hloop : tierLoop skipBoundRow (List.range 16) 720 0 0 = (520, 20, 200) := by
    simp only [show List.range 16 = [0, 1, 2, 3, 4, 5, 6, 7, 8, 9, 10, 11, 12, 13, 14, 15]
      from rfl]
    norm_num [tierLoop, h0r, h1r, h1m, h2r, min_def, max_def]
  refine ⟨?_, rfl, ?_, by norm_num⟩
  · rw [tierLoop_skip _ _ _ _ _ _ (Or.inl h0r)]
    rfl
  · simp [effective_cents_per_kwh_for_usage, hloop]
    norm_num

/-- C7 (amended): a tier whose rate cell is present but unusable (NaN or a
non-positive rate) is skipped with the whole loop state unchanged — it is not
billed, consumes no capacity, and its upper bound, even when present, does
not advance prev_max; prev_max only moves on tiers with a positive rate. -/
theorem spec_C7_amended (row : Row) (ts : List Nat) (t : Nat) (u c p : ℚ)
    (h : presentUnusableRate row t) :
    tierLoop row (t :: ts) u c p = tierLoop row ts u c p :=
  tierLoop_skip row ts t u c p h

/-- C7 witness: the amended statement evaluated on skipBoundRow at tier 0. -/
theorem spec_C7_witness :
    tierLoop skipBoundRow [0, 1] 720 0 0 = tierLoop skipBoundRow [1] 720 0 0 :=
  spec_C7_amended skipBoundRow [1] 0 720 0 0 (Or.inl rfl)

/-- C8: for a tariff whose first usable period0 tier (every earlier tier rate
cell being present but unusable) has positive rate r and an absent or
non-positive upper bound, the engine at any positive monthly usage returns
exactly r × 100. -/
theorem spec_C8 (row : Row) (m r : ℚ) (t : Nat) (ht : t < 16)
    (hprev : ∀ u, u < t → presentUnusableRate row u)
    (hrate : colVal row (rateCol t) = some (some r)) (hr : 0 < r)
    (hmax : (colVal row (maxCol t)).getD none = none ∨
      ∃ b, (colVal row (maxCol t)).getD none = some b ∧ b ≤ 0)
    (hm : 0 < m) :
    effective_cents_per_kwh_for_usage row m = some (r * 100) := by
  obtain ⟨rest, hsplit⟩ := range_split t 16 ht
  have hloop : tierLoop row (List.range 16) m 0 0 = (0, 0 + m * r, 0) := by
    rw [hsplit, tierLoop_skip_all row (List.range t) (t :: rest) m 0 0
      (fun x hx => hprev x (List.mem_range.mp hx))]
    exact tierLoop_unbounded row rest t m 0 0 r hrate hr hm hmax
  have hval : effective_cents_per_kwh_for_usage row m =
      some ((tierLoop row (List.range 16) m 0 0).2.1 / m * 100) := by
    simp [effective_cents_per_kwh_for_usage, hm.not_le]
  rw [hval, hloop]
  simp only [zero_add]
  rw [mul_comm m r, mul_div_assoc, div_self hm.ne', mul_one]

/-- C8 witness: a single unbounded tier at rate 0.25 prices to exactly 25
cents per kWh at usage 100. -/
theorem spec_C8_witness :
    effective_cents_per_kwh_for_usage singleTierRow 100 = some (0.25 * 100) :=
  spec_C8 singleTierRow 100 0.25 0 (by norm_num)
    (fun u hu => absurd hu (Nat.not_lt_zero u)) rfl (by norm_num)
    (Or.inl rfl) (by norm_num)

/-- C3 counterexample: a tariff row with is_default = some false passes the
whole eligibility chain and appears in the output. -/
theorem spec_C3_counterexample :
    eligiblePipeline [nonDefaultRow] ["Massachusetts Electric Co"] 100 =
      [fillEnd nonDefaultRow] ∧
      (fillEnd nonDefaultRow).is_default = some false := by decide

/-- C3 (amended): the eligibility chain applies no default-flag predicate at
all — rewriting the is_default flag of every input row commutes with the
whole chain, so membership in the output is decided without ever reading
is_default, and rows with is_default false or missing pass through. -/
theorem spec_C3_amended (rows : List TariffRow) (mapped : List String)
    (today : Int) (b : Option Bool) :
    eligiblePipeline (rows.map (setDefaultFlag b)) mapped today =
      (eligiblePipeline rows mapped today).map (setDefaultFlag b) := by
  have hzip : df_zip (rows.map (setDefaultFlag b)) mapped =
      (df_zip rows mapped).map (setDefaultFlag b) := by
    simp only [df_zip]
    rw [List.filter_map]
    rfl
  have hres : ∀ l : List TariffRow,
      df_zip_res (l.map (setDefaultFlag b)) = (df_zip_res l).map (setDefaultFlag b) := by
    intro l
    simp only [df_zip_res]
    rw [List.filter_map]
    rfl
  have hact : ∀ (l : List TariffRow) (t : Int),
      df_active (l.map (setDefaultFlag b)) t = (df_active l t).map (setDefaultFlag b) := by
    intro l t
    simp only [df_active]
    rw [List.map_map, show fillEnd ∘ setDefaultFlag b = setDefaultFlag b ∘ fillEnd from rfl,
      ← List.map_map, List.filter_map]
    rfl
  have hexc : ∀ (l : List TariffRow) (pat : String),
      excludeOnePat (l.map (setDefaultFlag b)) pat =
        (excludeOnePat l pat).map (setDefaultFlag b) := by
    intro l pat
    simp only [excludeOnePat]
    rw [List.filter_map, List.filter_map]
    rfl
  have hfold : ∀ (pats : List String) (l : List TariffRow),
      pats.foldl excludeOnePat (l.map (setDefaultFlag b)) =
        (pats.foldl excludeOnePat l).map (setDefaultFlag b) := by
    intro pats
    induction pats with
    | nil => intro l; rfl
    | cons pt pts ih =>
      intro l
      rw [List.foldl_cons, List.foldl_cons, hexc, ih]
  rw [eligiblePipeline, eligiblePipeline, df_single, df_single, hzip, hres, hact, hfold]

/-- C4 counterexample: lowercase residential and Residential TOU sectors are
both dropped by the sector stage, though the claim says both pass. -/
theorem spec_C4_counterexample :
    df_zip_res [lowerSectorRow, touSectorRow] = [] ∧
      lowerSectorRow.sector = "residential" ∧
      touSectorRow.sector = "Residential TOU" := by decide

/-- C4 (amended): the sector stage keeps exactly the tariffs whose sector
field equals the exact, case-sensitive string Residential; case variants and
longer labels such as Residential TOU are dropped. -/
theorem spec_C4_amended (rows : List TariffRow) (r : TariffRow) :
    r ∈ df_zip_res rows ↔ r ∈ rows ∧ r.sector = "Residential" := by
  simp [df_zip_res, List.mem_filter]

/-- C5 counterexample: a row whose startdate is NaT is dropped by the date
filter even though its end date satisfies the end-date clause. -/
theorem spec_C5_counterexample :
    df_active [noStartRow] 100 = [] ∧ noStartRow.startdate = none ∧
      (100 : Int) ≤ noStartRow.enddate.getD date2100 := by decide

/-- The activity predicate on a filled row, unfolded to date conditions. -/
theorem activePred_fillEnd (today : Int) (s : TariffRow) :
    activePred today (fillEnd s) = true ↔
      (∃ d, s.startdate = some d ∧ d ≤ today) ∧
        today ≤ s.enddate.getD date2100 := by
  cases hs : s.startdate with
  | none => simp [activePred, fillEnd, hs]
  | some d => simp [activePred, fillEnd, hs]

/-- C5 (amended): the date stage keeps exactly the rows whose startdate is
present and at most today and whose enddate — with a missing enddate filled
by the 2100-01-01 sentinel — is at least today. A row with an absent
startdate is excluded (pandas NaT compares false), and a row with an absent
enddate is kept by the end-date clause only while today is at most the
sentinel. -/
theorem spec_C5_amended (rows : List TariffRow) (today : Int) (r : TariffRow) :
    r ∈ df_active rows today ↔
      ∃ s ∈ rows, fillEnd s = r ∧
        (∃ d, s.startdate = some d ∧ d ≤ today) ∧
        today ≤ s.enddate.getD date2100 := by
  simp only [df_active, List.mem_filter, List.mem_map]
  constructor
  · rintro ⟨⟨s, hs, rfl⟩, hpred⟩
    exact ⟨s, hs, rfl, (activePred_fillEnd today s).mp hpred⟩
  · rintro ⟨s, hs, hfe, hrest, hend⟩
    subst hfe
    exact ⟨⟨s, hs, rfl⟩, (activePred_fillEnd today s).mpr ⟨hrest, hend⟩⟩

/-- C6 counterexample: a ZIP with zero rows in the ZIP map resolves to an
empty candidate set without any error being raised. -/
theorem spec_C6_counterexample :
    resolveTariffs [] [nonDefaultRow] 1749 = some [] ∧
      resolveTariffs [] [nonDefaultRow] 1749 ≠ none := by decide

/-- Membership in uniqueLoop: an element is kept exactly when it occurs in
the remaining input and has not been seen yet. -/
theorem mem_uniqueLoop (l : List String) :
    ∀ (seen : List String) (x : String),
      x ∈ uniqueLoop seen l ↔ x ∈ l ∧ ¬ x ∈ seen := by
  induction l with
  | nil => intro seen x; simp [uniqueLoop]
  | cons n t ih =>
    intro seen x
    simp only [uniqueLoop]
    by_cases hn : seen.contains n = true
    · rw [if_pos hn, ih seen x]
      have hnseen : n ∈ seen := List.elem_iff.mp hn
      constructor
      · rintro ⟨hxt, hxs⟩
        exact ⟨List.mem_cons_of_mem n hxt, hxs⟩
      · rintro ⟨hxnt, hxs⟩
        rcases List.mem_cons.mp hxnt with rfl | hxt
        · exact absurd hnseen hxs
        · exact ⟨hxt, hxs⟩
    · rw [if_neg hn]
      have hnseen : ¬ n ∈ seen := fun hmem => hn (List.elem_iff.mpr hmem)
      simp only [List.mem_cons, ih (n :: seen) x]
      constructor
      · rintro (rfl | ⟨hxt, hxs⟩)
        · exact ⟨Or.inl rfl, hnseen⟩
        · exact ⟨Or.inr hxt, fun hx => hxs (Or.inr hx)⟩
      · rintro ⟨rfl | hxt, hxs⟩
        · exact Or.inl rfl
        · by_cases hxn : x = n
          · exact Or.inl hxn
          · exact Or.inr ⟨hxt, fun hx => hx.elim hxn hxs⟩

/-- uniqueNames preserves membership. -/
theorem mem_uniqueNames (l : List String) (x : String) :
    x ∈ uniqueNames l ↔ x ∈ l := by
  rw [uniqueNames, mem_uniqueLoop]
  simp

/-- A successful mapped_utilities run contains exactly the translations of
the input names. -/
theorem mapped_utilities_mem (names : List String) :
    ∀ ms : List String, mapped_utilities names = some ms →
      ∀ x : String, x ∈ ms ↔ ∃ n ∈ names, mapLookup n = some x := by
  induction names with
  | nil =>
    intro ms h x
    simp only [mapped_utilities, Option.some.injEq] at h
    subst h
    simp
  | cons n t ih =>
    intro ms h x
    simp only [mapped_utilities] at h
    cases hl : mapLookup n with
    | none => rw [hl] at h; exact absurd h (by simp)
    | some v =>
      rw [hl] at h
      cases hmt : mapped_utilities t with
      | none => rw [hmt] at h; exact absurd h (by simp)
      | some vs =>
        rw [hmt] at h
        simp only [Option.map_some', Option.some.injEq] at h
        subst h
        simp only [List.mem_cons]
        rw [ih vs hmt x]
        constructor
        · rintro (rfl | ⟨n2, hn2, hx⟩)
          · exact ⟨n, Or.inl rfl, hl⟩
          · exact ⟨n2, Or.inr hn2, hx⟩
        · rintro ⟨n2, rfl | hn2, hx⟩
          · rw [hl] at hx
            exact Or.inl (Option.some.inj hx).symm
          · exact Or.inr ⟨n2, hn2, hx⟩

/-- C6 (amended): resolution never fails for an unmapped ZIP — zero ZIP-map
rows produce a successful empty candidate set, not a NotFoundError; and when
resolution does succeed, its output holds exactly the tariffs whose utility
name is the utility_map translation of some ZIP-map row for that ZIP,
with no non-emptiness guarantee (a name outside the hard-coded utility_map
instead makes the whole resolution fail with a KeyError, modelled as none). -/
theorem spec_C6_amended (zipmap : List ZipRow) (tariffs : List TariffRow)
    (z : Int) :
    (zip_utilities zipmap z = [] → resolveTariffs zipmap tariffs z = some []) ∧
      (∀ res, resolveTariffs zipmap tariffs z = some res →
        ∀ t, t ∈ res ↔ t ∈ tariffs ∧
          ∃ w ∈ zipmap, w.zip = z ∧ mapLookup w.utility_name = some t.utility) := by
  constructor
  · intro h
    simp [resolveTariffs, h, uniqueNames, uniqueLoop, mapped_utilities, df_zip,
      List.filter_eq_nil_iff]
  · intro res hres t
    simp only [resolveTariffs] at hres
    obtain ⟨ms, hms, hdf⟩ := Option.map_eq_some'.mp hres
    subst hdf
    simp only [df_zip, List.mem_filter]
    constructor
    · rintro ⟨ht, hc⟩
      refine ⟨ht, ?_⟩
      have hx : t.utility ∈ ms := List.elem_iff.mp hc
      rw [mapped_utilities_mem _ ms hms t.utility] at hx
      obtain ⟨n, hn, hlook⟩ := hx
      rw [mem_uniqueNames] at hn
      obtain ⟨w, hw, rfl⟩ := List.mem_map.mp hn
      have hw2 := List.mem_filter.mp hw
      refine ⟨w, hw2.1, ?_, hlook⟩
      have := hw2.2
      simpa using this
    · rintro ⟨ht, w, hw, hwz, hlook⟩
      refine ⟨ht, List.elem_iff.mpr ?_⟩
      rw [mapped_utilities_mem _ ms hms t.utility]
      refine ⟨w.utility_name, ?_, hlook⟩
      rw [mem_uniqueNames]
      refine List.mem_map.mpr ⟨w, ?_, rfl⟩
      exact List.mem_filter.mpr ⟨hw, by simp [hwz]⟩

/-- C6 witness: the amended statement evaluated at an empty ZIP map. -/
theorem spec_C6_witness : resolveTariffs [] [nonDefaultRow] 1749 = some [] :=
  (spec_C6_amended [] [nonDefaultRow] 1749).1 rfl

/-- The rates list of the extractor is empty exactly when no qualifying
column holds a positive value. -/
theorem energyRates_eq_nil_iff (row : Row) :
    energyRates row = [] ↔
      ∀ p ∈ row, isEnergyRateCol p.1 = true → ∀ v : ℚ, p.2 = some v → v ≤ 0 := by
  rw [energyRates, List.filterMap_eq_nil_iff]
  constructor
  · intro h p hp hcol v hv
    have h2 := h p hp
    rw [hcol, hv] at h2
    simp only [if_true] at h2
    by_contra hlt
    rw [if_pos (not_le.mp hlt)] at h2
    exact Option.some_ne_none v h2
  · intro h p hp
    by_cases hcol : isEnergyRateCol p.1 = true
    · rw [hcol]
      cases hv : p.2 with
      | none => simp
      | some v =>
        have hv0 : v ≤ 0 := h p hp hcol v hv
        simp [not_lt.mpr hv0]
    · simp [hcol]

/-- Membership in the extractor's rates list characterised by the row's
qualifying cells. -/
theorem mem_energyRates (row : Row) (x : ℚ) :
    x ∈ energyRates row ↔
      ∃ p ∈ row, isEnergyRateCol p.1 = true ∧ p.2 = some x ∧ 0 < x := by
  rw [energyRates, List.mem_filterMap]
  constructor
  · rintro ⟨p, hp, hf⟩
    by_cases hcol : isEnergyRateCol p.1 = true
    · rw [hcol] at hf
      simp only [if_true] at hf
      cases hv : p.2 with
      | none =>
        rw [hv] at hf
        have hf2 : (none : Option ℚ) = some x := hf
        exact absurd hf2 (by simp)
      | some v =>
        rw [hv] at hf
        have hf2 : (if 0 < v then some v else none) = some x := hf
        by_cases h0 : 0 < v
        · rw [if_pos h0] at hf2
          exact ⟨p, hp, hcol, by rw [hv, Option.some.inj hf2], (Option.some.inj hf2) ▸ h0⟩
        · rw [if_neg h0] at hf2
          exact absurd hf2 (by simp)
    · rw [if_neg hcol] at hf
      exact absurd hf (by simp)
  · rintro ⟨p, hp, hcol, hv, h0⟩
    exact ⟨p, hp, by rw [hcol, hv]; simp [h0]⟩

/-- C9: the minimum-rate extractor returns none exactly when no column whose
name starts with energyratestructure/ and ends with rate holds a positive
value, and otherwise returns 100 times the least such positive value — the
column test ranges over every period's tier rates, not only period0. -/
theorem spec_C9 (row : Row) :
    (extract_cents_per_kwh row = none ↔
      ∀ p ∈ row, isEnergyRateCol p.1 = true → ∀ v : ℚ, p.2 = some v → v ≤ 0) ∧
      (∀ m, extract_cents_per_kwh row = some m →
        ∃ x : ℚ, 0 < x ∧ m = x * 100 ∧
          (∃ p ∈ row, isEnergyRateCol p.1 = true ∧ p.2 = some x) ∧
          ∀ p ∈ row, isEnergyRateCol p.1 = true →
            ∀ v : ℚ, p.2 = some v → 0 < v → x ≤ v) := by
  constructor
  · rw [extract_cents_per_kwh, Option.map_eq_none', List.min?_eq_none_iff]
    exact energyRates_eq_nil_iff row
  · intro m hm
    rw [extract_cents_per_kwh] at hm
    obtain ⟨x, hmin, hx100⟩ := Option.map_eq_some'.mp hm
    have hxmem : x ∈ energyRates row :=
      List.min?_mem (fun a b => min_choice a b) hmin
    have hxle : ∀ b ∈ energyRates row, x ≤ b :=
      fun b hb => (List.le_min?_iff (fun a b c => le_min_iff) hmin).mp
        (le_refl x) b hb
    obtain ⟨p, hp, hcol, hv, h0x⟩ := (mem_energyRates row x).mp hxmem
    refine ⟨x, h0x, hx100.symm, ⟨p, hp, hcol, hv⟩, ?_⟩
    intro q hq hqcol v hv2 h0v
    exact hxle v ((mem_energyRates row v).mpr ⟨q, hq, hqcol, hv2, h0v⟩)

/-- A single-cell row for a period1 energy rate column. -/
def periodOneRow : Row := [("energyratestructure/period1/tier0rate", some 0.05)]

/-- C9 witness: the second half of the statement evaluated on a concrete row
whose only qualifying column lives in period1. -/
theorem spec_C9_witness :
    ∃ x : ℚ, 0 < x ∧ (0.05 : ℚ) * 100 = x * 100 ∧
      (∃ p ∈ periodOneRow, isEnergyRateCol p.1 = true ∧ p.2 = some x) ∧
      ∀ p ∈ periodOneRow, isEnergyRateCol p.1 = true →
        ∀ v : ℚ, p.2 = some v → 0 < v → x ≤ v :=
  (spec_C9 periodOneRow).2 (0.05 * 100) (by
    have hcol : isEnergyRateCol "energyratestructure/period1/tier0rate" = true := by
      decide
    norm_num [extract_cents_per_kwh, energyRates, periodOneRow, hcol,
      List.filterMap_cons, List.min?])

/-- The positive-rate list over period0 tiers is empty exactly when no tier
0..15 is usable. -/
theorem period0Rates_eq_nil_iff (row : Row) :
    period0Rates row = [] ↔ ∀ t, t < 16 → noUsableRate row t := by
  rw [period0Rates, List.filterMap_eq_nil_iff]
  constructor
  · intro h t ht
    have h2 := h t (List.mem_range.mpr ht)
    cases hcv : colVal row (rateCol t) with
    | none => exact Or.inl hcv
    | some rv =>
      cases rv with
      | none => exact Or.inr (Or.inl hcv)
      | some r =>
        rw [hcv] at h2
        have h3 : (if 0 < r then some r else none) = none := h2
        by_cases h0 : 0 < r
        · rw [if_pos h0] at h3
          exact absurd h3 (by simp)
        · exact Or.inr (Or.inr ⟨r, hcv, not_lt.mp h0⟩)
  · intro h t ht
    rcases h t (List.mem_range.mp ht) with hcv | hcv | ⟨r, hcv, hr⟩
    · simp [hcv]
    · simp [hcv]
    · simp [hcv, not_lt.mpr hr]

/-- A usable period0 tier rate belongs to the positive-rate list. -/
theorem mem_period0Rates_of (row : Row) (t : Nat) (r : ℚ) (ht : t < 16)
    (hcv : colVal row (rateCol t) = some (some r)) (h0 : 0 < r) :
    r ∈ period0Rates row := by
  rw [period0Rates, List.mem_filterMap]
  exact ⟨t, List.mem_range.mpr ht, by rw [hcv]; simp [h0]⟩

/-- Every member of the positive-rate list is positive. -/
theorem period0Rates_pos (row : Row) (r : ℚ) (hr : r ∈ period0Rates row) :
    0 < r := by
  rw [period0Rates, List.mem_filterMap] at hr
  obtain ⟨t, _, hf⟩ := hr
  cases hcv : colVal row (rateCol t) with
  | none =>
    rw [hcv] at hf
    have hf2 : (none : Option ℚ) = some r := hf
    exact absurd hf2 (by simp)
  | some rv =>
    cases rv with
    | none =>
      rw [hcv] at hf
      have hf2 : (none : Option ℚ) = some r := hf
      exact absurd hf2 (by simp)
    | some r2 =>
      rw [hcv] at hf
      have hf2 : (if 0 < r2 then some r2 else none) = some r := hf
      by_cases h0 : 0 < r2
      · rw [if_pos h0] at hf2
        exact (Option.some.inj hf2) ▸ h0
      · rw [if_neg h0] at hf2
        exact absurd hf2 (by simp)

/-- Loop invariant of the tier walk: starting from a nonnegative usage, the
final usage stays within [0, u], the cost never decreases, and the cost
increase is at most the billed energy times any bound B on the usable rates
of the tier list. -/
theorem tierLoop_bounds (row : Row) (B : ℚ) (ts : List Nat) :
    ∀ u c p : ℚ, 0 ≤ u →
      (∀ t ∈ ts, ∀ r : ℚ, colVal row (rateCol t) = some (some r) → 0 < r → r ≤ B) →
      0 ≤ (tierLoop row ts u c p).1 ∧ (tierLoop row ts u c p).1 ≤ u ∧
        c ≤ (tierLoop row ts u c p).2.1 ∧
        (tierLoop row ts u c p).2.1 ≤ c + (u - (tierLoop row ts u c p).1) * B := by
  induction ts with
  | nil =>
    intro u c p hu _
    rw [tierLoop_nil]
    exact ⟨hu, le_refl u, le_refl c, by simp⟩
  | cons t ts ih =>
    intro u c p hu hB
    have hBts : ∀ t2 ∈ ts, ∀ r : ℚ,
        colVal row (rateCol t2) = some (some r) → 0 < r → r ≤ B :=
      fun t2 ht2 => hB t2 (List.mem_cons_of_mem t ht2)
    cases hcv : colVal row (rateCol t) with
    | none =>
      rw [tierLoop_break _ _ _ _ _ _ hcv]
      exact ⟨hu, le_refl u, le_refl c, by simp⟩
    | some rv =>
      cases rv with
      | none =>
        rw [tierLoop_skip _ _ _ _ _ _ (Or.inl hcv)]
        exact ih u c p hu hBts
      | some rate =>
        by_cases hrle : rate ≤ 0
        · rw [tierLoop_skip _ _ _ _ _ _ (Or.inr ⟨rate, hcv, hrle⟩)]
          exact ih u c p hu hBts
        · have hrpos : 0 < rate := not_le.mp hrle
          have hrB : rate ≤ B := hB t (List.mem_cons_self t ts) rate hcv hrpos
          simp only [tierLoop, hcv, if_neg hrle]
          cases htm : (colVal row (maxCol t)).getD none with
          | none =>
            dsimp only
            by_cases hu0 : u ≤ 0
            · simp only [if_pos hu0]
              exact ih u c p hu hBts
            · have hup : 0 < u := not_le.mp hu0
              have h1 : 0 ≤ u * rate := mul_nonneg hup.le hrpos.le
              have h2 : u * rate ≤ u * B := mul_le_mul_of_nonneg_left hrB hup.le
              have h00 : u - u ≤ 1 / 1000000 := by rw [sub_self]; norm_num
              simp only [if_neg hu0, if_pos h00]
              refine ⟨by simp, by rw [sub_self]; exact hu, by linarith, ?_⟩
              rw [sub_self, sub_zero]
              linarith
          | some mx =>
            dsimp only
            by_cases hmx : mx ≤ 0
            · simp only [if_pos hmx]
              by_cases hu0 : u ≤ 0
              · simp only [if_pos hu0]
                exact ih u c mx hu hBts
              · have hup : 0 < u := not_le.mp hu0
                have h1 : 0 ≤ u * rate := mul_nonneg hup.le hrpos.le
                have h2 : u * rate ≤ u * B := mul_le_mul_of_nonneg_left hrB hup.le
                have h00 : u - u ≤ 1 / 1000000 := by rw [sub_self]; norm_num
                simp only [if_neg hu0, if_pos h00]
                refine ⟨by simp, by rw [sub_self]; exact hu, by linarith, ?_⟩
                rw [sub_self, sub_zero]
                linarith
            · simp only [if_neg hmx]
              have he0 : 0 ≤ min u (max (mx - p) 0) :=
                le_min hu (le_max_right _ _)
              have heu : min u (max (mx - p) 0) ≤ u := min_le_left _ _
              by_cases hele : min u (max (mx - p) 0) ≤ 0
              · simp only [if_pos hele]
                exact ih u c mx hu hBts
              · simp only [if_neg hele]
                have hepos : 0 < min u (max (mx - p) 0) := not_le.mp hele
                have h1 : 0 ≤ min u (max (mx - p) 0) * rate :=
                  mul_nonneg he0 hrpos.le
                have h2 : min u (max (mx - p) 0) * rate ≤
                    min u (max (mx - p) 0) * B :=
                  mul_le_mul_of_nonneg_left hrB he0
                by_cases hbr : u - min u (max (mx - p) 0) ≤ 1 / 1000000
                · simp only [if_pos hbr]
                  refine ⟨by simp [he0, heu], by linarith, by linarith, ?_⟩
                  have h3 : u - (u - min u (max (mx - p) 0)) =
                      min u (max (mx - p) 0) := by ring
                  rw [h3]
                  linarith
                · simp only [if_neg hbr]
                  obtain ⟨k1, k2, k3, k4⟩ :=
                    ih (u - min u (max (mx - p) 0))
                      (c + min u (max (mx - p) 0) * rate)
                      (if 0 < mx then mx else p) (by linarith) hBts
                  refine ⟨k1, by linarith, by linarith, ?_⟩
                  have h5 : (u -
                      (tierLoop row ts (u - min u (max (mx - p) 0))
                        (c + min u (max (mx - p) 0) * rate)
                        (if 0 < mx then mx else p)).1) * B =
                      (u - min u (max (mx - p) 0) -
                        (tierLoop row ts (u - min u (max (mx - p) 0))
                          (c + min u (max (mx - p) 0) * rate)
                          (if 0 < mx then mx else p)).1) * B +
                        min u (max (mx - p) 0) * B := by ring
                  linarith [k4, h5]

/-- C10: at positive usage the walk never drives usage_remaining negative
(the final remaining usage lies in [0, monthly_kwh], so the billed energy
never exceeds monthly_kwh), and the returned price is nonnegative, at most
100 times the largest positive period0 tier rate, and exactly 0 when no such
rate exists. -/
theorem spec_C10 (row : Row) (m q : ℚ) (hm : 0 < m)
    (h : effective_cents_per_kwh_for_usage row m = some q) :
    0 ≤ (tierLoop row (List.range 16) m 0 0).1 ∧
      (tierLoop row (List.range 16) m 0 0).1 ≤ m ∧
      0 ≤ q ∧
      ((period0Rates row).max? = none → q = 0) ∧
      ∀ M, (period0Rates row).max? = some M → q ≤ 100 * M := by
  have hq : q = (tierLoop row (List.range 16) m 0 0).2.1 / m * 100 := by
    simp only [effective_cents_per_kwh_for_usage, if_neg hm.not_le] at h
    exact (Option.some.inj h).symm
  cases hmax : (period0Rates row).max? with
  | none =>
    have hnil : period0Rates row = [] := List.max?_eq_none_iff.mp hmax
    have hnou : ∀ t, t < 16 → noUsableRate row t :=
      (period0Rates_eq_nil_iff row).mp hnil
    have hloop : tierLoop row (List.range 16) m 0 0 = (m, 0, 0) :=
      tierLoop_noUsable _ _ _ _ _ (fun t ht => hnou t (List.mem_range.mp ht))
    have hq0 : q = 0 := by rw [hq, hloop]; simp
    refine ⟨by rw [hloop]; exact hm.le, by rw [hloop], by rw [hq0], fun _ => hq0, ?_⟩
    intro M hM
    exact absurd hM (by simp)
  | some M =>
    have hMmem : M ∈ period0Rates row :=
      List.max?_mem (fun a b => max_choice a b) hmax
    have hMpos : 0 < M := period0Rates_pos row M hMmem
    have hble : ∀ b ∈ period0Rates row, b ≤ M :=
      fun b hb => (List.max?_le_iff (fun a b c => max_le_iff) hmax).mp (le_refl M) b hb
    have hB : ∀ t ∈ List.range 16, ∀ r : ℚ,
        colVal row (rateCol t) = some (some r) → 0 < r → r ≤ M :=
      fun t ht r hcv h0 =>
        hble r (mem_period0Rates_of row t r (List.mem_range.mp ht) hcv h0)
    obtain ⟨k1, k2, k3, k4⟩ := tierLoop_bounds row M (List.range 16) m 0 0 hm.le hB
    refine ⟨k1, k2, ?_, ?_, ?_⟩
    · rw [hq]
      exact mul_nonneg (div_nonneg k3 hm.le) (by norm_num)
    · intro hnone
      exact absurd hnone (by simp)
    · intro M2 hM2
      have hMM : M = M2 := Option.some.inj hM2
      subst hMM
      have hcost : (tierLoop row (List.range 16) m 0 0).2.1 ≤ m * M := by
        have h5 : (m - (tierLoop row (List.range 16) m 0 0).1) * M ≤ m * M :=
          mul_le_mul_of_nonneg_right (by linarith) hMpos.le
        linarith
      rw [hq]
      have hdiv : (tierLoop row (List.range 16) m 0 0).2.1 / m ≤ M :=
        (div_le_iff₀ hm).mpr (by linarith)
      calc (tierLoop row (List.range 16) m 0 0).2.1 / m * 100 ≤ M * 100 :=
            mul_le_mul_of_nonneg_right hdiv (by norm_num)
        _ = 100 * M := by ring

/-- C10 witness: the statement evaluated on the scenario row at usage 720. -/
theorem spec_C10_witness :
    0 ≤ (tierLoop scenarioRow (List.range 16) 720 0 0).1 ∧
      (tierLoop scenarioRow (List.range 16) 720 0 0).1 ≤ 720 ∧
      0 ≤ (105.6 / 720 * 100 : ℚ) ∧
      ((period0Rates scenarioRow).max? = none → (105.6 / 720 * 100 : ℚ) = 0) ∧
      ∀ M, (period0Rates scenarioRow).max? = some M →
        (105.6 / 720 * 100 : ℚ) ≤ 100 * M :=
  spec_C10 scenarioRow 720 (105.6 / 720 * 100) (by norm_num) scenarioRow_price
